import Mathlib

/-!
Verification of the size-constrained image encoding optimizer of the
`image-resizer` repository.  The definitions below are a shallow embedding of
the core functions in `src/lib/image-utils.ts` and
`src/lib/image-processor.ts`:

* `calculateNewDimensions` (image-utils.ts, lines 90-133),
* `getImageTypeFromFormat` (image-utils.ts, lines 136-152),
* `determineFormatSequence` (image-processor.ts, lines 124-180),
* `findOptimalQualityForFormat` (image-processor.ts, lines 185-277),
* `detectTransparency` (image-processor.ts, lines 282-301),
* the format-iteration loop of `processImage` (image-processor.ts, lines 54-98).

Modelling conventions: JavaScript numbers are modelled as exact rationals
(all quantities involved are small integers or simple percentages, where
IEEE-754 doubles are exact for the comparisons performed); byte sizes and
pixel values are naturals; quality values are integers; exceptions thrown by
the external encode capability `canvasToBlob` are modelled by an oracle of
type `ℤ → Option ℕ` returning `none`; a `Blob` is identified with its byte
size, the only attribute the optimizer inspects.
-/

/-- `Math.round` for the nonnegative quantities appearing here:
`Math.round x = ⌊x + 1/2⌋` (rounding half away from zero for positive `x`,
matching JavaScript for every value this program produces). -/
def jsRound (x : ℚ) : ℤ := ⌊x + 1 / 2⌋

/-- JavaScript truthiness of an optional numeric option field:
`undefined` and `0` are falsy. -/
def isGiven : Option ℕ → Bool
  | none => false
  | some n => decide (n ≠ 0)

/-- The numeric value of an optional field (only read in branches where the
field is truthy, so the default is never observable). -/
def optVal (o : Option ℕ) : ℕ := o.getD 0

/-- The pre-rounding dimension pair computed by `calculateNewDimensions`
(image-utils.ts lines 97-130): `newWidth`/`newHeight` as exact rationals,
with `Math.round` applied at the interior assignment points exactly where the
source applies it. -/
def calcDimsQ (originalWidth originalHeight : ℕ)
    (maxWidth maxHeight : Option ℕ) (maintainAspectRatio : Bool) : ℚ × ℚ :=
  if maintainAspectRatio then
    let aspectRatio : ℚ := (originalWidth : ℚ) / (originalHeight : ℚ)
    if isGiven maxWidth && isGiven maxHeight then
      let mw := optVal maxWidth
      let mh := optVal maxHeight
      if originalWidth > mw ∨ originalHeight > mh then
        if (mw : ℚ) / (mh : ℚ) > aspectRatio then
          (((jsRound ((mh : ℚ) * aspectRatio) : ℤ) : ℚ), (mh : ℚ))
        else
          ((mw : ℚ), ((jsRound ((mw : ℚ) / aspectRatio) : ℤ) : ℚ))
      else ((originalWidth : ℚ), (originalHeight : ℚ))
    else if isGiven maxWidth && decide (originalWidth > optVal maxWidth) then
      ((optVal maxWidth : ℚ),
        ((jsRound ((optVal maxWidth : ℚ) / aspectRatio) : ℤ) : ℚ))
    else if isGiven maxHeight && decide (originalHeight > optVal maxHeight) then
      (((jsRound ((optVal maxHeight : ℚ) * aspectRatio) : ℤ) : ℚ),
        (optVal maxHeight : ℚ))
    else ((originalWidth : ℚ), (originalHeight : ℚ))
  else
    let w : ℚ :=
      if isGiven maxWidth && decide (originalWidth > optVal maxWidth) then
        (optVal maxWidth : ℚ)
      else (originalWidth : ℚ)
    let h : ℚ :=
      if isGiven maxHeight && decide (originalHeight > optVal maxHeight) then
        (optVal maxHeight : ℚ)
      else (originalHeight : ℚ)
    (w, h)

/-- `calculateNewDimensions` (image-utils.ts lines 90-133): computes the new
dimension pair and applies `Math.round` to both components at the return. -/
def calculateNewDimensions (originalWidth originalHeight : ℕ)
    (maxWidth maxHeight : Option ℕ) (maintainAspectRatio : Bool) : ℤ × ℤ :=
  let d := calcDimsQ originalWidth originalHeight maxWidth maxHeight maintainAspectRatio
  (jsRound d.1, jsRound d.2)

/-- Substring matcher used to model `String.prototype.includes`:
`leadEq sub l` holds when `sub` is an initial segment of `l`. -/
def leadEq : List Char → List Char → Bool
  | [], _ => true
  | _ :: _, [] => false
  | a :: as, b :: bs => a == b && leadEq as bs

/-- `occursIn sub l` holds when `sub` occurs contiguously inside `l`. -/
def occursIn (sub : List Char) : List Char → Bool
  | [] => sub.isEmpty
  | b :: bs => leadEq sub (b :: bs) || occursIn sub bs

/-- JavaScript `s.includes(sub)`. -/
def strIncludes (s sub : String) : Bool := occursIn sub.toList s.toList

/-- JavaScript `s.toLowerCase()` for the ASCII strings this program
compares (a structural model: lower-case each character). -/
def strToLower (s : String) : String := String.mk (s.data.map Char.toLower)

/-- `getImageTypeFromFormat` (image-utils.ts lines 136-152): maps a format
name to a MIME type, defaulting to JPEG. -/
def getImageTypeFromFormat (format : String) : String :=
  let f := strToLower format
  if f == "jpeg" || f == "jpg" then "image/jpeg"
  else if f == "png" then "image/png"
  else if f == "webp" then "image/webp"
  else if f == "avif" then "image/avif"
  else if f == "gif" then "image/gif"
  else "image/jpeg"

/-- `determineFormatSequence` (image-processor.ts lines 124-180): the ordered
list of candidate output MIME types.  `requestedFormat` is the string value
of the `OutputFormat` union. -/
def determineFormatSequence (originalType requestedFormat : String)
    (hasTransparency isPhoto : Bool) : List String :=
  if requestedFormat != "auto" then [getImageTypeFromFormat requestedFormat]
  else
    let originalFormatLower := strToLower originalType
    let isOriginalPng := strIncludes originalFormatLower "png"
    let isOriginalJpeg := strIncludes originalFormatLower "jpeg" ||
      strIncludes originalFormatLower "jpg"
    let isOriginalWebP := strIncludes originalFormatLower "webp"
    let isOriginalAvif := strIncludes originalFormatLower "avif"
    if isOriginalPng then
      if hasTransparency then ["image/png", "image/webp", "image/avif"]
      else ["image/png", "image/webp", "image/avif", "image/jpeg"]
    else if isOriginalJpeg then
      if isPhoto then ["image/jpeg", "image/webp", "image/avif"]
      else ["image/webp", "image/jpeg", "image/avif"]
    else if isOriginalWebP then ["image/webp", "image/avif", "image/jpeg", "image/png"]
    else if isOriginalAvif then ["image/avif", "image/webp", "image/jpeg", "image/png"]
    else if hasTransparency then ["image/png", "image/webp", "image/avif"]
    else if isPhoto then ["image/webp", "image/jpeg", "image/avif", "image/png"]
    else ["image/webp", "image/png", "image/avif", "image/jpeg"]

/-- `options.lowerBoundTolerance || 10` (image-processor.ts line 55): the
JavaScript `||` default treats both `undefined` and `0` as unset. -/
def configuredLowerTolerance : Option ℕ → ℕ
  | none => 10
  | some v => if v = 0 then 10 else v

/-- `options.strictUpperLimit ? 0 : (options.upperBoundTolerance || 10)`
(image-processor.ts line 56). -/
def configuredUpperTolerance (strict : Bool) (stored : Option ℕ) : ℕ :=
  if strict then 0
  else match stored with
    | none => 10
    | some v => if v = 0 then 10 else v

/-- `effectiveLowerBound` (image-processor.ts line 204):
`targetSizeBytes * (1 - currentLowerBoundReduction / 100)`. -/
def effectiveLowerBound (target red : ℕ) : ℚ :=
  (target : ℚ) * (1 - (red : ℚ) / 100)

/-- `effectiveUpperBound` (image-processor.ts lines 205-207):
`strictUpperLimit ? targetSizeBytes : targetSizeBytes * (1 + upperBoundTolerance / 100)`.
Recomputed from loop-invariant inputs at every tolerance-relaxation
iteration, so it is the same value at every iteration. -/
def effectiveUpperBound (target upperTol : ℕ) (strict : Bool) : ℚ :=
  if strict then (target : ℚ) else (target : ℚ) * (1 + (upperTol : ℚ) / 100)

/-- `Math.floor((a + b) / 2)` on integers. -/
def jsFloorHalf (n : ℤ) : ℤ := Int.fdiv n 2

/-- `Math.ceil((a + b) / 2)` on integers. -/
def jsCeilHalf (n : ℤ) : ℤ := -Int.fdiv (-n) 2

/-- The mutable state of the binary-search loop of
`findOptimalQualityForFormat` (image-processor.ts lines 210-214):
`minQuality`, `maxQuality`, `currentQuality`, and the best accepted blob
(byte size) with its quality (`bestBlob`/`bestQuality`). -/
structure SearchState where
  minQ : ℤ
  maxQ : ℤ
  curQ : ℤ
  best : Option (ℕ × ℤ)
deriving DecidableEq

/-- The state declared at the head of each tolerance-relaxation iteration
(image-processor.ts lines 210-215): `minQuality = 1`, `maxQuality = 100`,
`currentQuality = initialQuality`, no best blob yet. -/
def initState (initQ : ℤ) : SearchState := ⟨1, 100, initQ, none⟩

/-- One classification-and-update step of the binary search
(image-processor.ts lines 224-245), given the byte size of the blob encoded
at `s.curQ`. -/
def updateOnSize (lowerB upperB : ℚ) (size : ℕ) (s : SearchState) : SearchState :=
  if (size : ℚ) ≤ upperB ∧ lowerB ≤ (size : ℚ) then
    let best :=
      match s.best with
      | none => some (size, s.curQ)
      | some (bb, bq) => if s.curQ > bq then some (size, s.curQ) else some (bb, bq)
    { minQ := s.curQ, maxQ := s.maxQ,
      curQ := min (jsCeilHalf (s.curQ + s.maxQ)) 100, best := best }
  else if ¬ ((size : ℚ) ≤ upperB) then
    { minQ := s.minQ, maxQ := s.curQ - 1,
      curQ := max (jsFloorHalf (s.minQ + (s.curQ - 1))) 1, best := s.best }
  else
    { minQ := s.curQ + 1, maxQ := s.maxQ,
      curQ := min (jsCeilHalf ((s.curQ + 1) + s.maxQ)) 100, best := s.best }

/-- Outcome of the inner `while` loop: a found result (`return` at line 259
uses the recorded best), loop exit with no accepted blob, or an encode
exception (`return null` at line 253). -/
inductive InnerOutcome where
  | found (blob : ℕ) (q : ℤ)
  | noBest
  | err
deriving DecidableEq

/-- Loop exit with the recorded best (image-processor.ts lines 257-260). -/
def finishState (s : SearchState) : InnerOutcome :=
  match s.best with
  | some (b, q) => InnerOutcome.found b q
  | none => InnerOutcome.noBest

/-- The inner `while (attempts < 10 && maxQuality >= minQuality)` loop
(image-processor.ts lines 217-255), instrumented with the number of
`canvasToBlob` calls made.  `fuel` is the remaining attempt budget
(`10 - attempts`); `enc` is the encode oracle (quality to byte size,
`none` modelling a thrown exception). -/
def innerLoopC (enc : ℤ → Option ℕ) (lowerB upperB : ℚ) :
    ℕ → SearchState → InnerOutcome × ℕ
  | 0, s => (finishState s, 0)
  | fuel + 1, s =>
    if s.maxQ ≥ s.minQ then
      match enc s.curQ with
      | none => (InnerOutcome.err, 1)
      | some size =>
        let s1 := updateOnSize lowerB upperB size s
        if (s1.maxQ - s1.minQ ≤ 1 ∧ s1.best ≠ none) ∨ s1.minQ > s1.maxQ then
          (finishState s1, 1)
        else
          let r := innerLoopC enc lowerB upperB fuel s1
          (r.1, r.2 + 1)
    else (finishState s, 0)

/-- The sequence of `currentLowerBoundReduction` values visited by the outer
`for` loop of `findOptimalQualityForFormat` (image-processor.ts lines
196-200): starting at the configured lower-bound tolerance, stepping by 5,
while `≤ 50`.  (At most 11 steps are ever possible since the start is a
natural number.) -/
def reductionLevels (lowerTol : ℕ) : List ℕ :=
  ((List.range 11).map (fun k => lowerTol + 5 * k)).filter (fun red => red ≤ 50)

/-- The tolerance-relaxation loop of `findOptimalQualityForFormat`
(image-processor.ts lines 196-276) over the listed reduction levels,
instrumented with the total number of `canvasToBlob` calls.  Per level:
recompute the window, run the binary search; an encode exception aborts the
whole format with `null`; a recorded best is returned; otherwise, when the
level has reached 50, make the last-resort probe at quality 1
(lines 262-272) and accept it only if it meets the upper bound. -/
def findOptimalGoC (enc : ℤ → Option ℕ) (target : ℕ) (initQ : ℤ)
    (upperTol : ℕ) (strict : Bool) : List ℕ → Option (ℕ × ℤ) × ℕ
  | [] => (none, 0)
  | red :: rest =>
    let upperB := effectiveUpperBound target upperTol strict
    let inner := innerLoopC enc (effectiveLowerBound target red) upperB 10 (initState initQ)
    match inner.1 with
    | InnerOutcome.err => (none, inner.2)
    | InnerOutcome.found b q => (some (b, q), inner.2)
    | InnerOutcome.noBest =>
      if 50 ≤ red then
        match enc 1 with
        | some b =>
          if (b : ℚ) ≤ upperB then (some (b, 1), inner.2 + 1)
          else
            let r1 := findOptimalGoC enc target initQ upperTol strict rest
            (r1.1, inner.2 + 1 + r1.2)
        | none =>
          let r1 := findOptimalGoC enc target initQ upperTol strict rest
          (r1.1, inner.2 + 1 + r1.2)
      else
        let r2 := findOptimalGoC enc target initQ upperTol strict rest
        (r2.1, inner.2 + r2.2)

/-- `findOptimalQualityForFormat` (image-processor.ts lines 185-277): result
component of the instrumented search.  (The `compressionLevel` parameter of
the source is never read in the body and is omitted.) -/
def findOptimalQualityForFormat (enc : ℤ → Option ℕ) (target : ℕ)
    (initQ : ℤ) (lowerTol upperTol : ℕ) (strict : Bool) : Option (ℕ × ℤ) :=
  (findOptimalGoC enc target initQ upperTol strict (reductionLevels lowerTol)).1

/-- The format-iteration loop of `processImage` (image-processor.ts lines
63-90): try each format in sequence; the first one for which the quality
search returns a result wins.  `encF` gives the encode oracle of each
format. -/
def tryFormats (encF : String → ℤ → Option ℕ) (target : ℕ) (initQ : ℤ)
    (lowerTol upperTol : ℕ) (strict : Bool) : List String → Option (String × ℕ × ℤ)
  | [] => none
  | f :: rest =>
    match findOptimalQualityForFormat (encF f) target initQ lowerTol upperTol strict with
    | some r => some (f, r.1, r.2)
    | none => tryFormats encF target initQ lowerTol upperTol strict rest

/-- The error message thrown by `processImage` when no format works
(image-processor.ts lines 93-98). -/
def noViableMessage : String :=
  "Failed to find a valid compression solution that meets the target size constraint. Please try a larger target size or different format."

/-- Steps 7-8 of `processImage` (image-processor.ts lines 58-98): the format
selection either produces a (format, blob size, quality) triple or fails
with the no-viable-encoding error. -/
def processImageSelection (encF : String → ℤ → Option ℕ) (target : ℕ)
    (initQ : ℤ) (lowerTol upperTol : ℕ) (strict : Bool)
    (formats : List String) : Except String (String × ℕ × ℤ) :=
  match tryFormats encF target initQ lowerTol upperTol strict formats with
  | some r => Except.ok r
  | none => Except.error noViableMessage

/-- `sampleSize` of `detectTransparency` (image-processor.ts line 291):
`Math.floor(pixels.length / 4 / 100)`.  This value is the divisor of the
stride computation on line 292. -/
def transparencySampleSize (pixels : List ℕ) : ℕ :=
  pixels.length / 4 / 100

/-- The sampling loop of `detectTransparency` (image-processor.ts lines
294-298), walking alpha indices `i, i + step, ...` while `i < pixels.length`
and reporting whether any visited byte is `< 255`.  The fuel argument is an
upper bound on the iteration count (the call site passes `pixels.length + 1`,
which suffices for any positive step). -/
def scanAlpha (pixels : List ℕ) (step : ℕ) : ℕ → ℕ → Bool
  | 0, _ => false
  | fuel + 1, i =>
    if i < pixels.length then
      if pixels.getD i 255 < 255 then true
      else scanAlpha pixels step fuel (i + step)
    else false

/-- `detectTransparency` (image-processor.ts lines 282-301) on the raw
`Uint8ClampedArray` byte list (RGBA, alpha at indices `≡ 3 mod 4`).
When `sampleSize = 0` (fewer than 100 pixels) the JavaScript stride
`Math.floor(totalPixels / 0)` is `Infinity` (`NaN` for an empty buffer), so
the loop examines index 3 at most once and then leaves the array bounds;
that behaviour is modelled explicitly in the first branch. -/
def detectTransparency (pixels : List ℕ) : Bool :=
  let totalPixels := pixels.length / 4
  let sampleSize := transparencySampleSize pixels
  if sampleSize = 0 then
    if 3 < pixels.length then decide (pixels.getD 3 255 < 255) else false
  else
    let stride := totalPixels / sampleSize
    scanAlpha pixels (4 * stride) (pixels.length + 1) 3

/-! ## Rounding helper lemmas -/

theorem jsRound_intCast (n : ℤ) : jsRound ((n : ℤ) : ℚ) = n := by
  unfold jsRound
  rw [Int.floor_eq_iff]
  constructor
  · linarith
  · linarith

theorem jsRound_natCast (n : ℕ) : jsRound ((n : ℕ) : ℚ) = (n : ℤ) := by
  have h : ((n : ℕ) : ℚ) = (((n : ℤ)) : ℚ) := by push_cast; ring
  rw [h, jsRound_intCast]

theorem jsRound_nonneg {x : ℚ} (hx : 0 ≤ x) : 0 ≤ jsRound x := by
  unfold jsRound
  rw [Int.le_floor]
  push_cast
  linarith

theorem jsRound_le_intCast {x : ℚ} {n : ℤ} (h : x ≤ (n : ℚ)) : jsRound x ≤ n := by
  have h2 : jsRound x ≤ jsRound ((n : ℤ) : ℚ) := by
    unfold jsRound
    exact Int.floor_le_floor (by linarith)
  rw [jsRound_intCast] at h2
  exact h2

theorem jsRound_le_natCast {x : ℚ} {n : ℕ} (h : x ≤ (n : ℚ)) : jsRound x ≤ (n : ℤ) := by
  apply jsRound_le_intCast
  push_cast
  exact h

/-! ## C2: the format-priority table for the four known families -/

/-- C2: for `requestedFormat = auto` and original format PNG, JPEG, WEBP or
AVIF, `determineFormatSequence` returns exactly the priority-table row for
every (transparency, isPhoto) combination, and each returned sequence is
non-empty and duplicate-free. -/
theorem determineFormatSequence_matches_table (t p : Bool) :
    (determineFormatSequence "image/png" "auto" true p =
      ["image/png", "image/webp", "image/avif"]) ∧
    (determineFormatSequence "image/png" "auto" false p =
      ["image/png", "image/webp", "image/avif", "image/jpeg"]) ∧
    (determineFormatSequence "image/jpeg" "auto" t true =
      ["image/jpeg", "image/webp", "image/avif"]) ∧
    (determineFormatSequence "image/jpeg" "auto" t false =
      ["image/webp", "image/jpeg", "image/avif"]) ∧
    (determineFormatSequence "image/webp" "auto" t p =
      ["image/webp", "image/avif", "image/jpeg", "image/png"]) ∧
    (determineFormatSequence "image/avif" "auto" t p =
      ["image/avif", "image/webp", "image/jpeg", "image/png"]) ∧
    (determineFormatSequence "image/png" "auto" t p ≠ [] ∧
      (determineFormatSequence "image/png" "auto" t p).Nodup) ∧
    (determineFormatSequence "image/jpeg" "auto" t p ≠ [] ∧
      (determineFormatSequence "image/jpeg" "auto" t p).Nodup) ∧
    (determineFormatSequence "image/webp" "auto" t p ≠ [] ∧
      (determineFormatSequence "image/webp" "auto" t p).Nodup) ∧
    (determineFormatSequence "image/avif" "auto" t p ≠ [] ∧
      (determineFormatSequence "image/avif" "auto" t p).Nodup) := by
  cases t <;> cases p <;> decide

/-! ## C5: the default (other/unknown family) transparency row -/

/-- C5 counterexample: for an original type outside the four known families
with transparency, the code returns `[PNG, WEBP, AVIF]`, not the
`[WEBP, PNG, AVIF, JPEG]` row stated in the specification table. -/
theorem default_transparency_sequence_cex :
    determineFormatSequence "image/gif" "auto" true false ≠
      ["image/webp", "image/png", "image/avif", "image/jpeg"] ∧
    determineFormatSequence "image/gif" "auto" true false =
      ["image/png", "image/webp", "image/avif"] := by
  constructor
  · decide
  · decide

/-- C5 (amended): when `requestedFormat` is `auto`, the original type is in
none of the PNG/JPEG/WEBP/AVIF families, and the analyzer reports
transparency, the sequencer returns `[PNG, WEBP, AVIF]` (the same row as a
transparent PNG; three entries, JPEG absent). -/
theorem default_transparency_sequence (originalType : String) (p : Bool)
    (h1 : strIncludes (strToLower originalType) "png" = false)
    (h2 : strIncludes (strToLower originalType) "jpeg" = false)
    (h3 : strIncludes (strToLower originalType) "jpg" = false)
    (h4 : strIncludes (strToLower originalType) "webp" = false)
    (h5 : strIncludes (strToLower originalType) "avif" = false) :
    determineFormatSequence originalType "auto" true p =
      ["image/png", "image/webp", "image/avif"] := by
  simp [determineFormatSequence, h1, h2, h3, h4, h5]

theorem default_transparency_sequence_witness :
    (strIncludes (strToLower "image/gif") "png" = false ∧
      strIncludes (strToLower "image/gif") "jpeg" = false ∧
      strIncludes (strToLower "image/gif") "jpg" = false ∧
      strIncludes (strToLower "image/gif") "webp" = false ∧
      strIncludes (strToLower "image/gif") "avif" = false) ∧
    determineFormatSequence "image/gif" "auto" true false =
      ["image/png", "image/webp", "image/avif"] :=
  ⟨by decide,
    default_transparency_sequence "image/gif" false (by decide) (by decide)
      (by decide) (by decide) (by decide)⟩

/-! ## C3: the effective acceptance-window upper bound -/

/-- C3 counterexample: with `strictUpperLimit = false` and a stored
`upperBoundTolerance` of `0`, the orchestrator's `|| 10` default (line 56)
replaces the `0` by `10`: for a target of 100 bytes the effective upper
bound used by every relaxation iteration is `110`, not
`100 * (1 + 0/100) = 100` as the claim states. -/
theorem upperTolerance_zero_cex :
    effectiveUpperBound 100 (configuredUpperTolerance false (some 0)) false = 110 ∧
    ¬ (effectiveUpperBound 100 (configuredUpperTolerance false (some 0)) false =
        (100 : ℚ) * (1 + (0 : ℚ) / 100)) := by
  constructor
  · norm_num [configuredUpperTolerance, effectiveUpperBound]
  · norm_num [configuredUpperTolerance, effectiveUpperBound]

/-- C3 (amended): the effective upper bound used at every
tolerance-relaxation iteration is `effectiveUpperBound` (a value independent
of the reduction level, hence identical across iterations and never
widening); it equals `targetSizeBytes` exactly when `strictUpperLimit` is
true regardless of the stored tolerance, and when `strictUpperLimit` is
false it equals `targetSizeBytes * (1 + tol/100)` where `tol` is the stored
`upperBoundTolerance` for stored values in `[1, 50]` but the default `10`
when the stored value is `0` or absent (the `|| 10` default treats `0` as
unset). -/
theorem effectiveUpperBound_characterization (target v : ℕ) (stored : Option ℕ) :
    (∀ strict : Bool, strict = true →
      effectiveUpperBound target (configuredUpperTolerance strict stored) strict =
        (target : ℚ)) ∧
    (stored = some v → v ≠ 0 →
      effectiveUpperBound target (configuredUpperTolerance false stored) false =
        (target : ℚ) * (1 + (v : ℚ) / 100)) ∧
    ((stored = none ∨ stored = some 0) →
      effectiveUpperBound target (configuredUpperTolerance false stored) false =
        (target : ℚ) * (1 + (10 : ℚ) / 100)) := by
  refine ⟨?_, ?_, ?_⟩
  · intro strict h
    subst h
    simp [effectiveUpperBound]
  · intro h hv
    subst h
    simp [configuredUpperTolerance, effectiveUpperBound, hv]
  · rintro (rfl | rfl) <;> simp [configuredUpperTolerance, effectiveUpperBound]

theorem effectiveUpperBound_characterization_witness :
    effectiveUpperBound 100 (configuredUpperTolerance true (some 25)) true = (100 : ℚ) ∧
    effectiveUpperBound 100 (configuredUpperTolerance false (some 25)) false =
      (100 : ℚ) * (1 + (25 : ℚ) / 100) ∧
    effectiveUpperBound 100 (configuredUpperTolerance false (some 0)) false =
      (100 : ℚ) * (1 + (10 : ℚ) / 100) :=
  ⟨(effectiveUpperBound_characterization 100 25 (some 25)).1 true rfl,
    (effectiveUpperBound_characterization 100 25 (some 25)).2.1 rfl (by decide),
    (effectiveUpperBound_characterization 100 0 (some 0)).2.2 (Or.inr rfl)⟩

/-! ## C7: binding constraint selection in dimension calculation -/

/-- C7: with aspect preservation and both bounds given (and truthy), when the
image exceeds either bound the binding constraint is chosen by comparing the
box ratio `maxW/maxH` with the original aspect ratio: height binds when the
box ratio exceeds the aspect ratio, width binds otherwise. -/
theorem calc_dims_binding_constraint (ow oh mw mh : ℕ)
    (hmw : mw ≠ 0) (hmh : mh ≠ 0) (hex : ow > mw ∨ oh > mh) :
    ((mw : ℚ) / (mh : ℚ) > (ow : ℚ) / (oh : ℚ) →
      calculateNewDimensions ow oh (some mw) (some mh) true =
        (jsRound ((mh : ℚ) * ((ow : ℚ) / (oh : ℚ))), (mh : ℤ))) ∧
    (¬ ((mw : ℚ) / (mh : ℚ) > (ow : ℚ) / (oh : ℚ)) →
      calculateNewDimensions ow oh (some mw) (some mh) true =
        ((mw : ℤ), jsRound ((mw : ℚ) / ((ow : ℚ) / (oh : ℚ))))) := by
  constructor
  · intro hgt
    simp only [calculateNewDimensions, calcDimsQ, isGiven, optVal, Option.getD_some,
      if_pos hex, if_pos hgt, hmw, hmh, decide_not]
    simp [hmw, hmh, jsRound_intCast, jsRound_natCast]
  · intro hle
    simp only [calculateNewDimensions, calcDimsQ, isGiven, optVal, Option.getD_some,
      if_pos hex, if_neg hle, hmw, hmh, decide_not]
    simp [hmw, hmh, jsRound_intCast, jsRound_natCast]

theorem calc_dims_binding_constraint_witness :
    ((1000 : ℕ) ≠ 0 ∧ (1000 : ℕ) ≠ 0 ∧ ((4000 : ℕ) > 1000 ∨ (2000 : ℕ) > 1000)) ∧
    calculateNewDimensions 4000 2000 (some 1000) (some 1000) true = (1000, 500) := by
  refine ⟨by norm_num, ?_⟩
  have h := (calc_dims_binding_constraint 4000 2000 1000 1000 (by norm_num)
    (by norm_num) (Or.inl (by norm_num))).2 (by norm_num)
  rw [h]
  have h2 : ((1000 : ℕ) : ℚ) / (((4000 : ℕ) : ℚ) / ((2000 : ℕ) : ℚ)) =
      (((500 : ℤ)) : ℚ) := by
    push_cast
    norm_num
  rw [h2, jsRound_intCast]
  norm_num

/-! ## C9: transparency detection sampling -/

/-- C9 counterexample: on a 50-pixel raster (200 RGBA bytes) the stride
divisor `Math.floor(pixels.length / 4 / 100)` computed on line 291 is `0` —
the code has no `max(1, ·)` guard, so the claim that the divisor is never
zero is false. -/
theorem transparency_divisor_cex :
    transparencySampleSize (List.replicate 200 255) = 0 ∧
    (List.replicate 200 (255 : ℕ)).length / 4 = 50 := by
  constructor
  · unfold transparencySampleSize
    rw [List.length_replicate]
  · rw [List.length_replicate]

/-- The sampling loop reports a byte below 255 only at an index congruent to
its starting index modulo 4 when the step is a multiple of 4. -/
theorem scanAlpha_true_sample (pixels : List ℕ) (m : ℕ) :
    ∀ fuel i, scanAlpha pixels (4 * m) fuel i = true →
      ∃ j, j < pixels.length ∧ pixels.getD j 255 < 255 ∧ j % 4 = i % 4 := by
  intro fuel
  induction fuel with
  | zero =>
    intro i h
    simp [scanAlpha] at h
  | succ fuel ih =>
    intro i h
    rw [scanAlpha] at h
    split_ifs at h with h1 h2
    · exact ⟨i, h1, h2, rfl⟩
    · obtain ⟨j, hj1, hj2, hj3⟩ := ih (i + 4 * m) h
      exact ⟨j, hj1, hj2, by omega⟩

/-- C9 (amended): the stride divisor of `detectTransparency` is
`floor(totalPixels / 100)` with no `max(1, ·)` guard, so it is `0` exactly
when the raster has fewer than 100 pixels (JavaScript then computes an
`Infinity`/`NaN` stride and the loop examines only the first pixel's alpha);
the detector is nevertheless total, and it returns `true` only when some
sampled alpha byte (an index `≡ 3 mod 4`) is below 255. -/
theorem detectTransparency_spec (pixels : List ℕ) :
    (transparencySampleSize pixels = 0 ↔ pixels.length / 4 < 100) ∧
    (detectTransparency pixels = true →
      ∃ j, j % 4 = 3 ∧ j < pixels.length ∧ pixels.getD j 255 < 255) := by
  constructor
  · unfold transparencySampleSize
    omega
  · intro h
    simp only [detectTransparency] at h
    by_cases h0 : transparencySampleSize pixels = 0
    · rw [if_pos h0] at h
      by_cases h3 : 3 < pixels.length
      · rw [if_pos h3] at h
        exact ⟨3, rfl, h3, of_decide_eq_true h⟩
      · rw [if_neg h3] at h
        cases h
    · rw [if_neg h0] at h
      obtain ⟨j, hj1, hj2, hj3⟩ :=
        scanAlpha_true_sample pixels (pixels.length / 4 / transparencySampleSize pixels)
          (pixels.length + 1) 3 h
      exact ⟨j, by omega, hj1, hj2⟩

theorem detectTransparency_spec_witness :
    detectTransparency [10, 20, 30, 100] = true ∧
    ∃ j, j % 4 = 3 ∧ j < ([10, 20, 30, 100] : List ℕ).length ∧
      ([10, 20, 30, 100] : List ℕ).getD j 255 < 255 :=
  ⟨by decide, (detectTransparency_spec [10, 20, 30, 100]).2 (by decide)⟩

/-! ## C8: dimensions are rounded; the ≥ 1 part fails -/

/-- C8 counterexample: a 10000x10 image constrained to `maxWidth = 5` with
aspect preservation yields `Math.round(5 / 1000) = 0` for the height — the
returned height is `0`, not `≥ 1` as the claim states. -/
theorem calc_dims_not_ge_one_cex :
    calculateNewDimensions 10000 10 (some 5) none true = (5, 0) ∧
    ¬ (1 ≤ (calculateNewDimensions 10000 10 (some 5) none true).2) := by
  have hq : ((5 : ℕ) : ℚ) / (((10000 : ℕ) : ℚ) / ((10 : ℕ) : ℚ)) = 1 / 200 := by
    push_cast
    norm_num
  have hr : jsRound (1 / 200 : ℚ) = 0 := by
    unfold jsRound
    rw [Int.floor_eq_iff]
    constructor <;> norm_num
  have h5 : jsRound (5 : ℚ) = 5 := by
    rw [show (5 : ℚ) = ((5 : ℤ) : ℚ) by norm_num, jsRound_intCast]
  have hz : jsRound (0 : ℚ) = 0 := by
    rw [show (0 : ℚ) = ((0 : ℤ) : ℚ) by norm_num, jsRound_intCast]
  have h : calculateNewDimensions 10000 10 (some 5) none true = (5, 0) := by
    simp only [calculateNewDimensions, calcDimsQ, isGiven, optVal, Option.getD_some]
    norm_num [hq, hr, jsRound_natCast, jsRound_intCast, h5, hz]
  refine ⟨h, ?_⟩
  rw [h]
  decide

theorem intCast_jsRound_le_natCast {x : ℚ} {n : ℕ} (h : x ≤ (n : ℚ)) :
    ((jsRound x : ℤ) : ℚ) ≤ (n : ℚ) := by
  exact_mod_cast jsRound_le_natCast h

theorem intCast_jsRound_nonneg {x : ℚ} (h : 0 ≤ x) : (0 : ℚ) ≤ ((jsRound x : ℤ) : ℚ) := by
  exact_mod_cast jsRound_nonneg h

/-- C8 (amended): for positive original dimensions, both components of
`calculateNewDimensions` are nearest-integer roundings of the computed
values and are nonnegative (they can be `0` in extreme aspect-ratio cases,
so the claimed lower bound of `1` does not hold). -/
theorem calc_dims_nonneg (ow oh : ℕ) (maxW maxH : Option ℕ) (mar : Bool)
    (how : 1 ≤ ow) (hoh : 1 ≤ oh) :
    0 ≤ (calculateNewDimensions ow oh maxW maxH mar).1 ∧
      0 ≤ (calculateNewDimensions ow oh maxW maxH mar).2 := by
  have key : 0 ≤ (calcDimsQ ow oh maxW maxH mar).1 ∧
      0 ≤ (calcDimsQ ow oh maxW maxH mar).2 := by
    rcases maxW with _ | mw <;> rcases maxH with _ | mh <;> cases mar <;>
      simp only [calcDimsQ, isGiven, optVal, Option.getD_some, Option.getD_none,
        Bool.false_and, Bool.and_false, Bool.false_eq_true, if_false, if_true] <;>
      (try split_ifs) <;>
      (try dsimp only) <;>
      constructor <;>
      first
        | positivity
        | exact intCast_jsRound_nonneg (by positivity)
  exact ⟨jsRound_nonneg key.1, jsRound_nonneg key.2⟩

theorem calc_dims_nonneg_witness :
    ((1 : ℕ) ≤ 10000 ∧ (1 : ℕ) ≤ 10) ∧
    0 ≤ (calculateNewDimensions 10000 10 (some 5) none true).1 ∧
      0 ≤ (calculateNewDimensions 10000 10 (some 5) none true).2 :=
  ⟨⟨by norm_num, by norm_num⟩,
    calc_dims_nonneg 10000 10 (some 5) none true (by norm_num) (by norm_num)⟩

/-! ## C10: no upscaling -/

/-- Pre-rounding components never exceed the original dimensions. -/
theorem calcDimsQ_le (ow oh : ℕ) (maxW maxH : Option ℕ) (mar : Bool)
    (how : 1 ≤ ow) (hoh : 1 ≤ oh) :
    (calcDimsQ ow oh maxW maxH mar).1 ≤ (ow : ℚ) ∧
      (calcDimsQ ow oh maxW maxH mar).2 ≤ (oh : ℚ) := by
  have hqw : (0 : ℚ) < (ow : ℚ) := by exact_mod_cast how
  have hqh : (0 : ℚ) < (oh : ℚ) := by exact_mod_cast hoh
  have har : (0 : ℚ) < (ow : ℚ) / (oh : ℚ) := by positivity
  have hcancel : (oh : ℚ) * ((ow : ℚ) / (oh : ℚ)) = (ow : ℚ) := by
    field_simp
  have hmul : ∀ m : ℕ, (m : ℚ) ≤ (oh : ℚ) →
      (m : ℚ) * ((ow : ℚ) / (oh : ℚ)) ≤ (ow : ℚ) := by
    intro m hm
    calc (m : ℚ) * ((ow : ℚ) / (oh : ℚ))
        ≤ (oh : ℚ) * ((ow : ℚ) / (oh : ℚ)) :=
          mul_le_mul_of_nonneg_right hm (le_of_lt har)
      _ = (ow : ℚ) := hcancel
  have hdiv : ∀ m : ℕ, (m : ℚ) ≤ (ow : ℚ) →
      (m : ℚ) / ((ow : ℚ) / (oh : ℚ)) ≤ (oh : ℚ) := by
    intro m hm
    rw [div_le_iff har]
    calc (m : ℚ) ≤ (ow : ℚ) := hm
      _ = (oh : ℚ) * ((ow : ℚ) / (oh : ℚ)) := hcancel.symm
  cases mar with
  | false =>
    rcases maxW with _ | mw <;> rcases maxH with _ | mh <;>
      simp only [calcDimsQ, isGiven, optVal, Option.getD_some, Option.getD_none,
        Bool.false_and, Bool.and_false, Bool.false_eq_true, if_false, if_true,
        Bool.and_eq_true, decide_eq_true_eq] <;>
      (try split_ifs) <;>
      (try dsimp only) <;>
      constructor <;>
      first
        | exact le_refl _
        | (rw [Nat.cast_le]; omega)
  | true =>
    rcases maxW with _ | mw <;> rcases maxH with _ | mh
    · simp only [calcDimsQ, isGiven, Bool.false_and, Bool.false_eq_true, if_false,
        if_true, Bool.and_false]
      exact ⟨le_refl _, le_refl _⟩
    · -- only maxHeight present
      simp only [calcDimsQ, isGiven, optVal, Option.getD_some, Option.getD_none,
        Bool.false_and, Bool.and_false, Bool.false_eq_true, if_false, if_true,
        Bool.and_eq_true, decide_eq_true_eq]
      split_ifs with hc
      · have hmh : (mh : ℚ) ≤ (oh : ℚ) := by exact_mod_cast le_of_lt hc.2
        exact ⟨intCast_jsRound_le_natCast (hmul mh hmh), hmh⟩
      · exact ⟨le_refl _, le_refl _⟩
    · -- only maxWidth present
      simp only [calcDimsQ, isGiven, optVal, Option.getD_some, Option.getD_none,
        Bool.false_and, Bool.and_false, Bool.false_eq_true, if_false, if_true,
        Bool.and_eq_true, decide_eq_true_eq]
      split_ifs with hc
      · have hmw : (mw : ℚ) ≤ (ow : ℚ) := by exact_mod_cast le_of_lt hc.2
        exact ⟨hmw, intCast_jsRound_le_natCast (hdiv mw hmw)⟩
      · exact ⟨le_refl _, le_refl _⟩
    · -- both bounds present
      simp only [calcDimsQ, isGiven, optVal, Option.getD_some, if_true,
        Bool.and_eq_true, decide_eq_true_eq]
      split_ifs with hA hB hC hD hE
      · -- both truthy, image exceeds a bound, box ratio > aspect ratio
        have hqmh : (0 : ℚ) < (mh : ℚ) := by
          exact_mod_cast Nat.pos_of_ne_zero hA.2
        rw [gt_iff_lt, div_lt_div_iff hqh hqmh] at hC
        have hmh : (mh : ℚ) ≤ (oh : ℚ) := by
          rcases hB with hlt | hlt
          · have hmwlt : (mw : ℚ) < (ow : ℚ) := by exact_mod_cast hlt
            have h1 : (mw : ℚ) * (oh : ℚ) < (ow : ℚ) * (oh : ℚ) := by nlinarith
            have h2 : (ow : ℚ) * (mh : ℚ) < (ow : ℚ) * (oh : ℚ) := lt_trans hC h1
            exact le_of_lt (lt_of_mul_lt_mul_left h2 (le_of_lt hqw))
          · exact_mod_cast le_of_lt hlt
        exact ⟨intCast_jsRound_le_natCast (hmul mh hmh), hmh⟩
      · -- both truthy, image exceeds a bound, width binding
        have hqmh : (0 : ℚ) < (mh : ℚ) := by
          exact_mod_cast Nat.pos_of_ne_zero hA.2
        rw [gt_iff_lt, not_lt, div_le_div_iff hqmh hqh] at hC
        have hmw : (mw : ℚ) ≤ (ow : ℚ) := by
          rcases hB with hlt | hlt
          · exact_mod_cast le_of_lt hlt
          · have hmhlt : (mh : ℚ) < (oh : ℚ) := by exact_mod_cast hlt
            have h1 : (ow : ℚ) * (mh : ℚ) < (ow : ℚ) * (oh : ℚ) := by nlinarith
            have h2 : (mw : ℚ) * (oh : ℚ) < (ow : ℚ) * (oh : ℚ) := lt_of_le_of_lt hC h1
            exact le_of_lt (lt_of_mul_lt_mul_right h2 (le_of_lt hqh))
        exact ⟨hmw, intCast_jsRound_le_natCast (hdiv mw hmw)⟩
      · exact ⟨le_refl _, le_refl _⟩
      · -- both-given test failed, single-width clamp taken
        have hmw : (mw : ℚ) ≤ (ow : ℚ) := by exact_mod_cast le_of_lt hD.2
        exact ⟨hmw, intCast_jsRound_le_natCast (hdiv mw hmw)⟩
      · -- both-given test failed, single-height clamp taken
        have hmh : (mh : ℚ) ≤ (oh : ℚ) := by exact_mod_cast le_of_lt hE.2
        exact ⟨intCast_jsRound_le_natCast (hmul mh hmh), hmh⟩
      · exact ⟨le_refl _, le_refl _⟩

/-- C10: `calculateNewDimensions` never upscales — each returned dimension is
bounded by the corresponding original dimension; with no bound given, or
when the image already fits inside both given bounds under aspect
preservation, the original dimensions are returned unchanged. -/
theorem calc_dims_no_upscale (ow oh : ℕ) (maxW maxH : Option ℕ) (mar : Bool)
    (how : 1 ≤ ow) (hoh : 1 ≤ oh) :
    ((calculateNewDimensions ow oh maxW maxH mar).1 ≤ (ow : ℤ) ∧
      (calculateNewDimensions ow oh maxW maxH mar).2 ≤ (oh : ℤ)) ∧
    (maxW = none → maxH = none →
      calculateNewDimensions ow oh maxW maxH mar = ((ow : ℤ), (oh : ℤ))) ∧
    (∀ mw mh, maxW = some mw → maxH = some mh → ow ≤ mw → oh ≤ mh → mar = true →
      calculateNewDimensions ow oh maxW maxH mar = ((ow : ℤ), (oh : ℤ))) := by
  refine ⟨?_, ?_, ?_⟩
  · have key := calcDimsQ_le ow oh maxW maxH mar how hoh
    exact ⟨jsRound_le_natCast key.1, jsRound_le_natCast key.2⟩
  · rintro rfl rfl
    cases mar <;>
      simp [calculateNewDimensions, calcDimsQ, isGiven, jsRound_natCast]
  · rintro mw mh rfl rfl h1 h2 rfl
    have hmw : mw ≠ 0 := by omega
    have hmh : mh ≠ 0 := by omega
    have hc2 : ¬ (ow > mw ∨ oh > mh) := by omega
    simp [calculateNewDimensions, calcDimsQ, isGiven, optVal, hmw, hmh, hc2,
      jsRound_natCast]

/-! ## Search-engine invariants -/

theorem finishState_found {s : SearchState} {b : ℕ} {q : ℤ}
    (h : finishState s = InnerOutcome.found b q) : s.best = some (b, q) := by
  unfold finishState at h
  rcases hb : s.best with _ | ⟨bb, bq⟩ <;> rw [hb] at h
  · cases h
  · simp only [InnerOutcome.found.injEq] at h
    rw [h.1, h.2]

theorem finishState_none {s : SearchState} (hb : s.best = none) :
    finishState s = InnerOutcome.noBest := by
  unfold finishState
  rw [hb]

/-- The binary-search step only records a best blob whose size meets the
upper bound. -/
theorem updateOnSize_best_le (lowerB upperB : ℚ) (size : ℕ) (s : SearchState)
    (hP : ∀ b q, s.best = some (b, q) → (b : ℚ) ≤ upperB) :
    ∀ b q, (updateOnSize lowerB upperB size s).best = some (b, q) →
      (b : ℚ) ≤ upperB := by
  intro b q h
  unfold updateOnSize at h
  split_ifs at h with h1 h2
  · dsimp only at h
    rcases hb : s.best with _ | ⟨bb, bq⟩ <;> rw [hb] at h <;> dsimp only at h
    · simp only [Option.some.injEq, Prod.mk.injEq] at h
      exact h.1 ▸ h1.1
    · split_ifs at h <;> simp only [Option.some.injEq, Prod.mk.injEq] at h
      · exact h.1 ▸ h1.1
      · exact h.1 ▸ hP bb bq hb
  · exact hP b q h
  · exact hP b q h

/-- When the probe result exceeds the upper bound the recorded best is
unchanged. -/
theorem updateOnSize_too_large (lowerB upperB : ℚ) (size : ℕ) (s : SearchState)
    (hgt : upperB < (size : ℚ)) :
    (updateOnSize lowerB upperB size s).best = s.best := by
  unfold updateOnSize
  split_ifs with h1 h2
  · exact absurd h1.1 (not_le.mpr hgt)
  · rfl
  · rfl

/-- One unfolding of the inner loop: the loop is entered, the probe returns
a blob, and the break condition fires after the update. -/
theorem innerLoopC_step_break (enc : ℤ → Option ℕ) (lowerB upperB : ℚ)
    (fuel : ℕ) (s : SearchState) (hge : s.maxQ ≥ s.minQ) (size : ℕ)
    (henc : enc s.curQ = some size)
    (hbr : ((updateOnSize lowerB upperB size s).maxQ -
        (updateOnSize lowerB upperB size s).minQ ≤ 1 ∧
        (updateOnSize lowerB upperB size s).best ≠ none) ∨
      (updateOnSize lowerB upperB size s).minQ >
        (updateOnSize lowerB upperB size s).maxQ) :
    innerLoopC enc lowerB upperB (fuel + 1) s =
      (finishState (updateOnSize lowerB upperB size s), 1) := by
  simp only [innerLoopC]
  rw [if_pos hge, henc]
  dsimp only
  rw [if_pos hbr]

/-- One unfolding of the inner loop: the loop is entered and the probe
throws. -/
theorem innerLoopC_step_err (enc : ℤ → Option ℕ) (lowerB upperB : ℚ)
    (fuel : ℕ) (s : SearchState) (hge : s.maxQ ≥ s.minQ)
    (henc : enc s.curQ = none) :
    innerLoopC enc lowerB upperB (fuel + 1) s = (InnerOutcome.err, 1) := by
  simp only [innerLoopC]
  rw [if_pos hge, henc]

/-- A found result of the inner loop satisfies the upper bound, provided the
incoming state's best (if any) does. -/
theorem innerLoopC_found_le (enc : ℤ → Option ℕ) (lowerB upperB : ℚ) :
    ∀ (fuel : ℕ) (s : SearchState),
      (∀ b q, s.best = some (b, q) → (b : ℚ) ≤ upperB) →
      ∀ b q, (innerLoopC enc lowerB upperB fuel s).1 = InnerOutcome.found b q →
        (b : ℚ) ≤ upperB := by
  intro fuel
  induction fuel with
  | zero =>
    intro s hP b q h
    simp only [innerLoopC] at h
    exact hP b q (finishState_found h)
  | succ fuel ih =>
    intro s hP b q h
    simp only [innerLoopC] at h
    split_ifs at h with hge
    · rcases henc : enc s.curQ with _ | size <;> rw [henc] at h
      · cases h
      · dsimp only at h
        have hP1 := updateOnSize_best_le lowerB upperB size s hP
        split_ifs at h with hbreak
        · dsimp only at h
          exact hP1 b q (finishState_found h)
        · dsimp only at h
          exact ih (updateOnSize lowerB upperB size s) hP1 b q h
    · dsimp only at h
      exact hP b q (finishState_found h)

/-- When every encode result exceeds the upper bound, the inner loop never
produces a found result from a state with no recorded best. -/
theorem innerLoopC_allbig_not_found (enc : ℤ → Option ℕ) (lowerB upperB : ℚ)
    (hbig : ∀ q s', enc q = some s' → upperB < (s' : ℚ)) :
    ∀ (fuel : ℕ) (s : SearchState), s.best = none →
      ∀ b q, (innerLoopC enc lowerB upperB fuel s).1 ≠ InnerOutcome.found b q := by
  intro fuel
  induction fuel with
  | zero =>
    intro s hb b q h
    simp only [innerLoopC] at h
    rw [finishState_none hb] at h
    cases h
  | succ fuel ih =>
    intro s hb b q h
    simp only [innerLoopC] at h
    split_ifs at h with hge
    · rcases henc : enc s.curQ with _ | size <;> rw [henc] at h
      · cases h
      · dsimp only at h
        have hbest : (updateOnSize lowerB upperB size s).best = none := by
          rw [updateOnSize_too_large lowerB upperB size s (hbig _ _ henc), hb]
        split_ifs at h with hbreak
        · dsimp only at h
          rw [finishState_none hbest] at h
          cases h
        · dsimp only at h
          exact ih (updateOnSize lowerB upperB size s) hbest b q h
    · dsimp only at h
      rw [finishState_none hb] at h
      cases h

/-- Any result of the relaxation loop satisfies the effective upper bound,
coming either from the inner search or from the accepted last-resort
probe. -/
theorem findOptimalGoC_some_le (enc : ℤ → Option ℕ) (target : ℕ) (initQ : ℤ)
    (upperTol : ℕ) (strict : Bool) :
    ∀ (levels : List ℕ) (b : ℕ) (q : ℤ),
      (findOptimalGoC enc target initQ upperTol strict levels).1 = some (b, q) →
      (b : ℚ) ≤ effectiveUpperBound target upperTol strict := by
  intro levels
  induction levels with
  | nil =>
    intro b q h
    simp [findOptimalGoC] at h
  | cons red rest ih =>
    intro b q h
    simp only [findOptimalGoC] at h
    rcases hO : (innerLoopC enc (effectiveLowerBound target red)
        (effectiveUpperBound target upperTol strict) 10 (initState initQ)).1 with
      ⟨b1, q1⟩ | _ | _ <;> rw [hO] at h <;> (try dsimp only at h)
    · simp only [Option.some.injEq, Prod.mk.injEq] at h
      have hle := innerLoopC_found_le enc (effectiveLowerBound target red)
        (effectiveUpperBound target upperTol strict) 10 (initState initQ)
        (by intro bb qq hh; cases hh) b1 q1 hO
      exact h.1 ▸ hle
    · split_ifs at h with h50
      · rcases hE : enc 1 with _ | lb <;> rw [hE] at h <;> (try dsimp only at h)
        · exact ih b q h
        · split_ifs at h with hacc
          · simp only [Option.some.injEq, Prod.mk.injEq] at h
            exact h.1 ▸ hacc
          · dsimp only at h
            exact ih b q h
      · exact ih b q h
    · cases h

/-- When every encode result exceeds the upper bound, the relaxation loop
returns no result. -/
theorem findOptimalGoC_allbig (enc : ℤ → Option ℕ) (target : ℕ) (initQ : ℤ)
    (upperTol : ℕ) (strict : Bool)
    (hbig : ∀ q s, enc q = some s →
      effectiveUpperBound target upperTol strict < (s : ℚ)) :
    ∀ levels : List ℕ,
      (findOptimalGoC enc target initQ upperTol strict levels).1 = none := by
  intro levels
  induction levels with
  | nil => simp [findOptimalGoC]
  | cons red rest ih =>
    simp only [findOptimalGoC]
    rcases hO : (innerLoopC enc (effectiveLowerBound target red)
        (effectiveUpperBound target upperTol strict) 10 (initState initQ)).1 with
      ⟨b1, q1⟩ | _ | _ <;> (try dsimp only)
    · exact absurd hO (innerLoopC_allbig_not_found enc _ _ hbig 10 (initState initQ) rfl b1 q1)
    · split_ifs with h50
      · rcases hE : enc 1 with _ | lb <;> (try dsimp only)
        · exact ih
        · rw [if_neg (not_le.mpr (hbig 1 lb hE))]
          dsimp only
          exact ih
      · exact ih

/-- C1: every result returned by `findOptimalQualityForFormat` — from the
binary search or the last-resort probe — has byte size at most the effective
upper bound; and, for every encode oracle all of whose results exceed the
effective upper bound (in particular when even quality 1 does, for a
monotone encoder), the engine returns `none` rather than any
bound-violating result. -/
theorem findOptimal_upper_bound (enc : ℤ → Option ℕ) (target : ℕ) (initQ : ℤ)
    (lowerTol upperTol : ℕ) (strict : Bool) :
    (∀ b q, findOptimalQualityForFormat enc target initQ lowerTol upperTol strict =
        some (b, q) → (b : ℚ) ≤ effectiveUpperBound target upperTol strict) ∧
    ((∀ q s, enc q = some s →
        effectiveUpperBound target upperTol strict < (s : ℚ)) →
      findOptimalQualityForFormat enc target initQ lowerTol upperTol strict = none) := by
  constructor
  · intro b q h
    exact findOptimalGoC_some_le enc target initQ upperTol strict
      (reductionLevels lowerTol) b q h
  · intro hbig
    exact findOptimalGoC_allbig enc target initQ upperTol strict hbig
      (reductionLevels lowerTol)

theorem findOptimal_upper_bound_witness :
    (findOptimalQualityForFormat (fun _ => some 50) 50 99 50 10 false = some (50, 99) ∧
      ((50 : ℕ) : ℚ) ≤ effectiveUpperBound 50 10 false) ∧
    ((∀ q s, (fun _ : ℤ => (some 200 : Option ℕ)) q = some s →
        effectiveUpperBound 100 10 false < (s : ℚ)) ∧
      findOptimalQualityForFormat (fun _ => some 200) 100 80 55 10 false = none) := by
  have hupd : updateOnSize (effectiveLowerBound 50 50) (effectiveUpperBound 50 10 false)
      50 (initState 99) = ⟨99, 100, 100, some (50, 99)⟩ := by
    have hcond : ((50 : ℕ) : ℚ) ≤ effectiveUpperBound 50 10 false ∧
        effectiveLowerBound 50 50 ≤ ((50 : ℕ) : ℚ) := by
      constructor <;> norm_num [effectiveUpperBound, effectiveLowerBound]
    unfold updateOnSize
    rw [if_pos hcond]
    decide
  have hinner : innerLoopC (fun _ => some 50) (effectiveLowerBound 50 50)
      (effectiveUpperBound 50 10 false) 10 (initState 99) =
      (InnerOutcome.found 50 99, 1) := by
    rw [show (10 : ℕ) = 9 + 1 from rfl]
    rw [innerLoopC_step_break (fun _ => some 50) (effectiveLowerBound 50 50)
      (effectiveUpperBound 50 10 false) 9 (initState 99) (by decide) 50 rfl
      (by rw [hupd]; decide)]
    rw [hupd]
    rfl
  have hev : findOptimalQualityForFormat (fun _ => some 50) 50 99 50 10 false =
      some (50, 99) := by
    unfold findOptimalQualityForFormat
    rw [show reductionLevels 50 = [50] from by decide]
    simp only [findOptimalGoC]
    rw [hinner]
  refine ⟨⟨hev, (findOptimal_upper_bound (fun _ => some 50) 50 99 50 10 false).1
    50 99 hev⟩, ?_⟩
  have hyp : ∀ q s, (fun _ : ℤ => (some 200 : Option ℕ)) q = some s →
      effectiveUpperBound 100 10 false < (s : ℚ) := by
    intro q s hqs
    simp only [Option.some.injEq] at hqs
    subst hqs
    norm_num [effectiveUpperBound]
  exact ⟨hyp, (findOptimal_upper_bound (fun _ => some 200) 100 80 55 10 false).2 hyp⟩

/-! ## C4: probe budget and tolerance levels -/

theorem innerLoopC_count_le (enc : ℤ → Option ℕ) (lowerB upperB : ℚ) :
    ∀ (fuel : ℕ) (s : SearchState), (innerLoopC enc lowerB upperB fuel s).2 ≤ fuel := by
  intro fuel
  induction fuel with
  | zero =>
    intro s
    simp [innerLoopC]
  | succ fuel ih =>
    intro s
    simp only [innerLoopC]
    split_ifs with hge
    · rcases henc : enc s.curQ with _ | size <;> (try dsimp only)
      · omega
      · split_ifs with hbreak <;> (try dsimp only)
        · omega
        · have := ih (updateOnSize lowerB upperB size s)
          omega
    · dsimp only
      omega

theorem findOptimalGoC_count_le (enc : ℤ → Option ℕ) (target : ℕ) (initQ : ℤ)
    (upperTol : ℕ) (strict : Bool) :
    ∀ levels : List ℕ,
      (findOptimalGoC enc target initQ upperTol strict levels).2 ≤
        10 * levels.length + levels.countP (fun r => decide (50 ≤ r)) := by
  intro levels
  induction levels with
  | nil => simp [findOptimalGoC]
  | cons red rest ih =>
    simp only [findOptimalGoC, List.length_cons]
    have hc := innerLoopC_count_le enc (effectiveLowerBound target red)
      (effectiveUpperBound target upperTol strict) 10 (initState initQ)
    rcases hO : (innerLoopC enc (effectiveLowerBound target red)
        (effectiveUpperBound target upperTol strict) 10 (initState initQ)).1 with
      ⟨b1, q1⟩ | _ | _ <;> (try dsimp only)
    · omega
    · split_ifs with h50
      · have hcp : List.countP (fun r => decide (50 ≤ r)) (red :: rest) =
            List.countP (fun r => decide (50 ≤ r)) rest + 1 :=
          List.countP_cons_of_pos _ _ (decide_eq_true h50)
        rcases hE : enc 1 with _ | lb <;> (try dsimp only)
        · rw [hcp]
          omega
        · split_ifs with hacc <;> (try dsimp only)
          · rw [hcp]
            omega
          · rw [hcp]
            omega
      · have hcp : List.countP (fun r => decide (50 ≤ r)) (red :: rest) =
            List.countP (fun r => decide (50 ≤ r)) rest :=
          List.countP_cons_of_neg _ _ (by simpa using h50)
        rw [hcp]
        omega
    · omega

/-- Closed-form characterization of the visited reduction levels. -/
theorem reductionLevels_char (lt : ℕ) :
    reductionLevels lt =
      (List.range (if lt ≤ 50 then (50 - lt) / 5 + 1 else 0)).map
        (fun k => lt + 5 * k) := by
  by_cases hlt : lt ≤ 50
  · rw [if_pos hlt]
    have key : ∀ n < 51, reductionLevels n =
        (List.range ((50 - n) / 5 + 1)).map (fun k => n + 5 * k) := by decide
    exact key lt (by omega)
  · rw [if_neg hlt]
    simp only [List.range_zero, List.map_nil]
    unfold reductionLevels
    rw [List.filter_eq_nil_iff]
    intro a ha
    simp only [List.mem_map, List.mem_range] at ha
    obtain ⟨k, _, rfl⟩ := ha
    simp only [decide_eq_true_eq]
    omega

theorem reductionLevels_countP_le (lt : ℕ) :
    (reductionLevels lt).countP (fun r => decide (50 ≤ r)) ≤ 1 := by
  by_cases hlt : lt ≤ 50
  · have key : ∀ n < 51,
        (reductionLevels n).countP (fun r => decide (50 ≤ r)) ≤ 1 := by decide
    exact key lt (by omega)
  · rw [reductionLevels_char]
    rw [if_neg hlt]
    simp

theorem reductionLevels_le_50 (lt : ℕ) : ∀ x ∈ reductionLevels lt, x ≤ 50 := by
  intro x hx
  unfold reductionLevels at hx
  rw [List.mem_filter] at hx
  simpa using hx.2

theorem reductionLevels_getD (lt : ℕ) :
    ∀ k, k < (reductionLevels lt).length →
      (reductionLevels lt).getD k 0 = lt + 5 * k := by
  intro k hk
  rw [reductionLevels_char] at hk ⊢
  rw [List.getD_eq_getElem _ _ hk]
  simp

/-- C4: the engine always terminates; each tolerance level makes at most 10
encode probes; the visited reduction levels are `lowerTol, lowerTol + 5, ...`
in order, never exceeding 50 and never skipping a step; the total number of
encode calls is at most `10 * (number of levels) + 1` (the `+ 1` being the
single possible last-resort probe), hence at most 91 for the default lower
tolerance of 10. -/
theorem search_probe_budget (enc : ℤ → Option ℕ) (target : ℕ) (initQ : ℤ)
    (lowerTol upperTol : ℕ) (strict : Bool) (lowerB upperB : ℚ) (s : SearchState) :
    ((innerLoopC enc lowerB upperB 10 s).2 ≤ 10) ∧
    ((findOptimalGoC enc target initQ upperTol strict (reductionLevels lowerTol)).2 ≤
      10 * (reductionLevels lowerTol).length + 1) ∧
    (reductionLevels 10 = [10, 15, 20, 25, 30, 35, 40, 45, 50]) ∧
    (lowerTol = 10 →
      (findOptimalGoC enc target initQ upperTol strict (reductionLevels lowerTol)).2 ≤ 91) ∧
    (∀ k, k < (reductionLevels lowerTol).length →
      (reductionLevels lowerTol).getD k 0 = lowerTol + 5 * k) ∧
    (∀ x ∈ reductionLevels lowerTol, x ≤ 50) := by
  have h1 := innerLoopC_count_le enc lowerB upperB 10 s
  have h2 := findOptimalGoC_count_le enc target initQ upperTol strict
    (reductionLevels lowerTol)
  have h3 := reductionLevels_countP_le lowerTol
  have hlist : reductionLevels 10 = [10, 15, 20, 25, 30, 35, 40, 45, 50] := by decide
  refine ⟨h1, by omega, hlist, ?_, reductionLevels_getD lowerTol,
    reductionLevels_le_50 lowerTol⟩
  intro h10
  subst h10
  have hcp : ([10, 15, 20, 25, 30, 35, 40, 45, 50] : List ℕ).countP
      (fun r => decide (50 ≤ r)) = 1 := by decide
  have hlen : ([10, 15, 20, 25, 30, 35, 40, 45, 50] : List ℕ).length = 9 := by decide
  rw [hlist, hcp, hlen] at h2
  rw [hlist]
  omega

theorem search_probe_budget_witness :
    (findOptimalGoC (fun _ => some 200) 100 80 10 false (reductionLevels 10)).2 ≤ 91 ∧
    reductionLevels 10 = [10, 15, 20, 25, 30, 35, 40, 45, 50] ∧
    (reductionLevels 10).getD 2 0 = 10 + 5 * 2 := by
  have h := search_probe_budget (fun _ => some 200) 100 80 10 10 false 0 0 (initState 80)
  exact ⟨h.2.2.2.1 rfl, h.2.2.1, h.2.2.2.2.1 2 (by decide)⟩

theorem calc_dims_no_upscale_witness :
    ((1 : ℕ) ≤ 800 ∧ (1 : ℕ) ≤ 600) ∧
    ((calculateNewDimensions 800 600 none none true).1 ≤ (800 : ℤ) ∧
      (calculateNewDimensions 800 600 none none true).2 ≤ (600 : ℤ)) ∧
    calculateNewDimensions 800 600 none none true = ((800 : ℤ), (600 : ℤ)) := by
  have h := calc_dims_no_upscale 800 600 none none true (by norm_num) (by norm_num)
  exact ⟨⟨by norm_num, by norm_num⟩, h.1, h.2.1 rfl rfl⟩

/-! ## C6: encode failure handling and orchestrator fallback -/

/-- An encode exception during the probes of the current tolerance level
makes the whole format return `null` immediately (image-processor.ts line
253), regardless of the remaining levels. -/
theorem findOptimalGoC_err_level (enc : ℤ → Option ℕ) (target : ℕ) (initQ : ℤ)
    (upperTol : ℕ) (strict : Bool) (red : ℕ) (rest : List ℕ)
    (herr : (innerLoopC enc (effectiveLowerBound target red)
        (effectiveUpperBound target upperTol strict) 10 (initState initQ)).1 =
      InnerOutcome.err) :
    (findOptimalGoC enc target initQ upperTol strict (red :: rest)).1 = none := by
  simp only [findOptimalGoC]
  rw [herr]

/-- A totally failing encode capability makes `findOptimalQualityForFormat`
return `null` for that format. -/
theorem findOptimal_fail_none (enc : ℤ → Option ℕ) (target : ℕ) (initQ : ℤ)
    (lowerTol upperTol : ℕ) (strict : Bool) (hfail : ∀ q, enc q = none) :
    findOptimalQualityForFormat enc target initQ lowerTol upperTol strict = none := by
  unfold findOptimalQualityForFormat
  rcases hl : reductionLevels lowerTol with _ | ⟨red, rest⟩
  · rfl
  · apply findOptimalGoC_err_level
    rw [show (10 : ℕ) = 9 + 1 from rfl]
    rw [innerLoopC_step_err enc _ _ 9 (initState initQ) (by norm_num [initState]) (hfail _)]

/-- A format whose quality search returns `null` is skipped and the
orchestrator continues with the rest of the sequence. -/
theorem tryFormats_skip (encF : String → ℤ → Option ℕ) (target : ℕ) (initQ : ℤ)
    (lowerTol upperTol : ℕ) (strict : Bool) (f : String) (rest : List String)
    (hnone : findOptimalQualityForFormat (encF f) target initQ lowerTol upperTol strict =
      none) :
    tryFormats encF target initQ lowerTol upperTol strict (f :: rest) =
      tryFormats encF target initQ lowerTol upperTol strict rest := by
  simp only [tryFormats]
  rw [hnone]

/-- The orchestrator's format loop produces no result exactly when every
candidate format's quality search returns `null`. -/
theorem tryFormats_none_iff (encF : String → ℤ → Option ℕ) (target : ℕ)
    (initQ : ℤ) (lowerTol upperTol : ℕ) (strict : Bool) :
    ∀ formats : List String,
      tryFormats encF target initQ lowerTol upperTol strict formats = none ↔
        ∀ g ∈ formats,
          findOptimalQualityForFormat (encF g) target initQ lowerTol upperTol strict =
            none := by
  intro formats
  induction formats with
  | nil => simp [tryFormats]
  | cons f rest ih =>
    simp only [tryFormats]
    rcases hf : findOptimalQualityForFormat (encF f) target initQ lowerTol upperTol
        strict with _ | r
    · constructor
      · intro h g hg
        rcases List.mem_cons.mp hg with hg1 | hg2
        · rw [hg1]
          exact hf
        · exact (ih.mp h) g hg2
      · intro h
        exact ih.mpr (fun g hg => h g (List.mem_cons_of_mem f hg))
    · constructor
      · intro h
        cases h
      · intro h
        have hfn := h f (List.mem_cons_self f rest)
        rw [hf] at hfn
        cases hfn

/-- C6: an encode failure (thrown exception) during any probe of the current
level makes the quality search return `null` for that format without
propagating the error (a totally failing capability yields `null`
immediately), the orchestrator then continues with the next candidate
format, and — given decode and resize succeed — `processImage` fails with
the no-viable-encoding error if and only if every candidate format in the
sequence returns `null`. -/
theorem encode_failure_handling (encF : String → ℤ → Option ℕ) (target : ℕ)
    (initQ : ℤ) (lowerTol upperTol : ℕ) (strict : Bool) (f : String)
    (rest formats : List String) (red : ℕ) (rst2 : List ℕ) :
    (((innerLoopC (encF f) (effectiveLowerBound target red)
        (effectiveUpperBound target upperTol strict) 10 (initState initQ)).1 =
          InnerOutcome.err →
      (findOptimalGoC (encF f) target initQ upperTol strict (red :: rst2)).1 = none) ∧
     ((∀ q, encF f q = none) →
       findOptimalQualityForFormat (encF f) target initQ lowerTol upperTol strict =
         none ∧
       tryFormats encF target initQ lowerTol upperTol strict (f :: rest) =
         tryFormats encF target initQ lowerTol upperTol strict rest)) ∧
    (processImageSelection encF target initQ lowerTol upperTol strict formats =
        Except.error noViableMessage ↔
      ∀ g ∈ formats,
        findOptimalQualityForFormat (encF g) target initQ lowerTol upperTol strict =
          none) := by
  refine ⟨⟨?_, ?_⟩, ?_⟩
  · intro herr
    exact findOptimalGoC_err_level (encF f) target initQ upperTol strict red rst2 herr
  · intro hfail
    have h1 := findOptimal_fail_none (encF f) target initQ lowerTol upperTol strict hfail
    exact ⟨h1, tryFormats_skip encF target initQ lowerTol upperTol strict f rest h1⟩
  · unfold processImageSelection
    rcases ht : tryFormats encF target initQ lowerTol upperTol strict formats with _ | r
    · constructor
      · intro _
        exact (tryFormats_none_iff encF target initQ lowerTol upperTol strict
          formats).mp ht
      · intro _
        rfl
    · constructor
      · intro h
        cases h
      · intro h
        have := (tryFormats_none_iff encF target initQ lowerTol upperTol strict
          formats).mpr h
        rw [ht] at this
        cases this

theorem encode_failure_handling_witness :
    findOptimalQualityForFormat ((fun _ _ => none : String → ℤ → Option ℕ) "image/png")
      100 80 10 10 false = none ∧
    processImageSelection (fun _ _ => none) 100 80 10 10 false ["image/png"] =
      Except.error noViableMessage := by
  have h := encode_failure_handling (fun _ _ => none) 100 80 10 10 false
    "image/png" [] ["image/png"] 10 []
  have h1 := (h.1.2 (fun q => rfl)).1
  refine ⟨h1, ?_⟩
  apply h.2.mpr
  intro g hg
  exact h1
